import Mathlib

/-!
Shallow embedding of the Tetris engine in `src/main.py` (class `GameBoard`).

The Python class is command-driven and single-threaded: each method reads and
writes the fields of `self`.  We model the mutable fields as a record `GState`
and each method as a pure function on `GState` (returning the method's result
where it has one).  Qt signal emissions are modelled by appending to a `sigs`
list.  The two calls to `random.randint(1, 7)` (in `reset_board` and
`create_new_piece`) are modelled by passing the drawn value as an argument.
Rendering-only calls (`self.update()`, `self.repaint()`, `self.setFocus()`)
have no engine effect and are omitted.
-/

namespace Tetris

/-- A grid coordinate, mirroring Qt's `QPoint` as used by the engine. -/
structure Pt where
  x : Int
  y : Int
deriving DecidableEq, Repr

/-- The locked-block matrix `board_state`: a list of rows, each a list of
cell values (`NO_BLOCK = 0` or a shape index 1..7). -/
abbrev Board := List (List Int)

/-- Source constant `BOARD_WIDTH_BLOCKS = 10`. -/
def BOARD_WIDTH_BLOCKS : Nat := 10

/-- Source constant `BOARD_HEIGHT_BLOCKS = 22`. -/
def BOARD_HEIGHT_BLOCKS : Nat := 22

/-- Source constant `NO_BLOCK = 0`. -/
def NO_BLOCK : Int := 0

/-- Source constant `TETRIS_SHAPES`: the 7 pieces as offsets relative to a
pivot, in source order (O, I, T, L, J, S, Z; 1-based indices). -/
def TETRIS_SHAPES : List (List (Int × Int)) :=
  [ [(0, 0), (0, 1), (1, 0), (1, 1)]
  , [(0, -1), (0, 0), (0, 1), (0, 2)]
  , [(0, -1), (0, 0), (1, 0), (-1, 0)]
  , [(0, 0), (-1, 0), (1, 0), (1, 1)]
  , [(0, 0), (-1, 0), (1, 0), (-1, 1)]
  , [(0, 0), (1, 0), (0, 1), (-1, 1)]
  , [(0, 0), (-1, 0), (0, 1), (1, 1)] ]

/-- Qt signals emitted by `GameBoard`, with their payloads. -/
inductive Sig where
  | score (n : Nat)
  | level (n : Nat)
  | rows (n : Nat)
  | nextPiece (i : Int)
  | gameOver
deriving DecidableEq, Repr

/-- The mutable fields of `GameBoard` (engine state only; pixel sizes and
style sheets are rendering concerns).  `piece_stats` is the per-shape spawn
counter dictionary, modelled as a total function. -/
structure GState where
  board_state : Board
  current_piece_shape_index : Int
  current_piece_coords : List Pt
  current_pos : Pt
  next_piece_shape_index : Int
  is_started : Bool
  is_paused : Bool
  score : Nat
  level : Nat
  rows_cleared_total : Nat
  piece_stats : Int → Nat
  sigs : List Sig

/-- Cell lookup `board_state[y][x]` for coordinates already known to be in
bounds; out-of-range indices default to `[]` / `0`. -/
def cellAt (b : Board) (x y : Int) : Int :=
  (b.getD y.toNat []).getD x.toNat 0

/-- Writing `board_state[y][x] = v` (functionally). -/
def setCell (b : Board) (x y : Int) (v : Int) : Board :=
  b.set y.toNat ((b.getD y.toNat []).set x.toNat v)

/-- One iteration of the loop body of `check_collision`: a point passes when
it is in bounds and the cell under it is `NO_BLOCK`.  Mirrors the two `if`
statements of the source (the second bounds test is from the source's
short-circuit guard). -/
def validPoint (b : Board) (p : Pt) : Bool :=
  if p.x < 0 ∨ p.x ≥ (BOARD_WIDTH_BLOCKS : Int) ∨ p.y < 0 ∨
      p.y ≥ (BOARD_HEIGHT_BLOCKS : Int) then
    false
  else if (0 ≤ p.y ∧ p.y < (BOARD_HEIGHT_BLOCKS : Int)) ∧
      cellAt b p.x p.y ≠ NO_BLOCK then
    false
  else
    true

/-- `GameBoard.check_collision`: returns `true` when every point of
`piece_coords` is in bounds and over an empty cell (the source returns
`False` out of the loop on the first bad point, `True` at the end). -/
def check_collision (b : Board) (piece_coords : List Pt) : Bool :=
  piece_coords.all (validPoint b)

/-- Python list indexing `l[i]` including the negative-index convention:
`none` models an `IndexError`. -/
def pyIdx (len : Nat) (i : Int) : Option Nat :=
  let j : Int := if i < 0 then (len : Int) + i else i
  if 0 ≤ j ∧ j < (len : Int) then some j.toNat else none

/-- Python read `l[i]`. -/
def pyGet (l : List α) (i : Int) : Option α :=
  (pyIdx l.length i).bind (fun j => l.get? j)

/-- Python element assignment `l[i] = v`. -/
def pySetL (l : List α) (i : Int) (v : α) : Option (List α) :=
  (pyIdx l.length i).map (fun j => l.set j v)

/-- `check_collision` re-expressed with exception-aware Python indexing:
`none` models the loop raising `IndexError` on `self.board_state[y][x]`. -/
def check_collision_opt (b : Board) : List Pt → Option Bool
  | [] => some true
  | p :: rest =>
    if p.x < 0 ∨ p.x ≥ (BOARD_WIDTH_BLOCKS : Int) ∨ p.y < 0 ∨
        p.y ≥ (BOARD_HEIGHT_BLOCKS : Int) then
      some false
    else
      let occ : Option Bool :=
        if 0 ≤ p.y ∧ p.y < (BOARD_HEIGHT_BLOCKS : Int) then
          (pyGet b p.y).bind (fun row => (pyGet row p.x).map (fun c => c ≠ NO_BLOCK))
        else some false
      match occ with
      | none => none
      | some true => some false
      | some false => check_collision_opt b rest

/-- `TETRIS_SHAPES[idx - 1]` for a 1-based shape index. -/
def shapeOffsets (idx : Int) : List (Int × Int) :=
  TETRIS_SHAPES.getD (idx - 1).toNat []

/-- The fixed spawn pivot `QPoint(BOARD_WIDTH_BLOCKS // 2, 1)`. -/
def spawnPos : Pt :=
  ⟨(BOARD_WIDTH_BLOCKS : Int) / 2, 1⟩

/-- The 4 absolute cells a shape occupies at the spawn pivot. -/
def spawnCoords (idx : Int) : List Pt :=
  (shapeOffsets idx).map (fun o => ⟨spawnPos.x + o.1, spawnPos.y + o.2⟩)

/-- The initial field values set by `GameBoard.__init__` before it calls
`reset_board` (the constructor then runs `reset_board` on this state). -/
def init0 : GState :=
  { board_state := []
    current_piece_shape_index := -1
    current_piece_coords := []
    current_pos := ⟨0, 0⟩
    next_piece_shape_index := -1
    is_started := false
    is_paused := false
    score := 0
    level := 0
    rows_cleared_total := 0
    piece_stats := fun _ => 0
    sigs := [] }

/-- `GameBoard.reset_board`; `r` is the `random.randint(1, 7)` draw for the
next piece. -/
def reset_board (r : Int) (s : GState) : GState :=
  { s with
    board_state :=
      List.replicate BOARD_HEIGHT_BLOCKS (List.replicate BOARD_WIDTH_BLOCKS NO_BLOCK)
    current_piece_coords := []
    current_piece_shape_index := -1
    next_piece_shape_index := r
    piece_stats := fun _ => 0
    is_started := false
    is_paused := false
    score := 0
    level := 0
    rows_cleared_total := 0
    sigs := s.sigs ++ [Sig.score 0, Sig.level 0, Sig.rows 0, Sig.nextPiece r] }

/-- `GameBoard.create_new_piece`; `r` is the `random.randint(1, 7)` draw for
the following piece.  On spawn collision the game ends: `is_started` is
cleared, the piece is discarded and `game_over_signal` is emitted. -/
def create_new_piece (r : Int) (s : GState) : GState :=
  let idx := s.next_piece_shape_index
  let stats' : Int → Nat :=
    if idx ≠ -1 then fun j => if j = idx then s.piece_stats j + 1 else s.piece_stats j
    else s.piece_stats
  let coords := spawnCoords idx
  let s1 : GState :=
    { s with
      current_piece_shape_index := idx
      piece_stats := stats'
      current_pos := spawnPos
      current_piece_coords := coords
      next_piece_shape_index := r
      sigs := s.sigs ++ [Sig.nextPiece r] }
  if ¬ check_collision s1.board_state coords then
    { s1 with
      is_started := false
      current_piece_coords := []
      sigs := s1.sigs ++ [Sig.gameOver] }
  else s1

/-- `GameBoard.move_piece`: translate the piece by `(dx, dy)` when the
target cells are collision-free; returns the updated state and the
method's boolean result. -/
def move_piece (dx dy : Int) (s : GState) : GState × Bool :=
  if s.current_piece_coords = [] ∨ s.is_paused then (s, false)
  else
    let new_coords := s.current_piece_coords.map (fun p => ⟨p.x + dx, p.y + dy⟩)
    if check_collision s.board_state new_coords then
      ({ s with
          current_piece_coords := new_coords
          current_pos := ⟨s.current_pos.x + dx, s.current_pos.y + dy⟩ }, true)
    else (s, false)

/-- The per-point transform inside `rotate_piece`: relative offset
`(rx, ry)` becomes `(-ry, rx)` about the pivot. -/
def rotatePoint (pivot p : Pt) : Pt :=
  ⟨pivot.x - (p.y - pivot.y), pivot.y + (p.x - pivot.x)⟩

/-- `GameBoard.rotate_piece`: no-op when paused, pieceless, or the square
piece (index 1); otherwise commits the 90-degree rotation about
`current_pos` when the rotated cells are collision-free. -/
def rotate_piece (s : GState) : GState :=
  if s.current_piece_coords = [] ∨ s.is_paused then s
  else if s.current_piece_shape_index = 1 then s
  else
    let new_coords := s.current_piece_coords.map (rotatePoint s.current_pos)
    if check_collision s.board_state new_coords then
      { s with current_piece_coords := new_coords }
    else s

/-- `isFullRow row` is the source condition
`all(board_state[y][x] != NO_BLOCK for x in range(BOARD_WIDTH_BLOCKS))`. -/
def isFullRow (row : List Int) : Bool :=
  (List.range BOARD_WIDTH_BLOCKS).all (fun x => row.getD x 0 ≠ NO_BLOCK)

/-- An all-empty row, as built by the rebuild in `clear_lines`. -/
def emptyRow : List Int :=
  List.replicate BOARD_WIDTH_BLOCKS NO_BLOCK

/-- The rebuild loop of `clear_lines`: walk `old_row_index` over `idxs`
(the source iterates `BOARD_HEIGHT_BLOCKS - 1` down to `0`), copying each
non-cleared row into `new_board` at `new_row_index` (which counts down,
guarded by `new_row_index >= 0`). -/
def rebuildLoop (b : Board) (toClear : List Nat) :
    List Nat → Board → Int → Board
  | [], nb, _ => nb
  | oy :: rest, nb, ni =>
    if oy ∈ toClear then rebuildLoop b toClear rest nb ni
    else if 0 ≤ ni then
      rebuildLoop b toClear rest (nb.set ni.toNat (b.getD oy [])) (ni - 1)
    else rebuildLoop b toClear rest nb ni

/-- The `lines_to_clear` computation at the top of `clear_lines`: the list
of row indices whose row is completely non-empty. -/
def linesToClear (b : Board) : List Nat :=
  (List.range BOARD_HEIGHT_BLOCKS).filter (fun y => isFullRow (b.getD y []))

/-- `GameBoard.clear_lines`: find the full rows; if none, return unchanged;
otherwise update `rows_cleared_total`, `score` (with the pre-update level),
possibly `level`, rebuild the board bottom-up, and emit the three progress
signals. -/
def clear_lines (s : GState) : GState :=
  let lines_to_clear := linesToClear s.board_state
  if lines_to_clear = [] then s
  else
    let num_cleared := lines_to_clear.length
    let rows' := s.rows_cleared_total + num_cleared
    let score_gain := num_cleared * num_cleared * (s.level + 1) * 10
    let score' := s.score + score_gain
    let new_level := rows' / 10
    let level' := if new_level > s.level then new_level else s.level
    let new_board :=
      rebuildLoop s.board_state lines_to_clear
        (List.range BOARD_HEIGHT_BLOCKS).reverse
        (List.replicate BOARD_HEIGHT_BLOCKS emptyRow)
        ((BOARD_HEIGHT_BLOCKS : Int) - 1)
    { s with
      rows_cleared_total := rows'
      score := score'
      level := level'
      board_state := new_board
      sigs := s.sigs ++ [Sig.score score', Sig.level level', Sig.rows rows'] }

/-- The locking loop of `cement_piece`: write the shape index into every
listed cell whose coordinates are in bounds, skipping the rest. -/
def lockCells (b : Board) (coords : List Pt) (idx : Int) : Board :=
  coords.foldl
    (fun acc p =>
      if (0 ≤ p.y ∧ p.y < (BOARD_HEIGHT_BLOCKS : Int)) ∧
          (0 ≤ p.x ∧ p.x < (BOARD_WIDTH_BLOCKS : Int)) then
        setCell acc p.x p.y idx
      else acc)
    b

/-- The locking loop with exception-aware Python indexing: `none` models
`board_state[y][x] = v` raising `IndexError`. -/
def lockCellsOpt (b : Board) (coords : List Pt) (idx : Int) : Option Board :=
  coords.foldlM
    (fun acc p =>
      if (0 ≤ p.y ∧ p.y < (BOARD_HEIGHT_BLOCKS : Int)) ∧
          (0 ≤ p.x ∧ p.x < (BOARD_WIDTH_BLOCKS : Int)) then
        (pyGet acc p.y).bind (fun row =>
          (pySetL row p.x idx).bind (fun row' => pySetL acc p.y row'))
      else some acc)
    b

/-- `GameBoard.cement_piece`; `r` is the random draw consumed by the
`create_new_piece` call at the end (when the game is still started). -/
def cement_piece (r : Int) (s : GState) : GState :=
  if s.current_piece_coords = [] then s
  else
    let s1 := clear_lines
      { s with
        board_state :=
          lockCells s.board_state s.current_piece_coords s.current_piece_shape_index }
    let s2 := { s1 with current_piece_coords := [], current_piece_shape_index := -1 }
    if s2.is_started then create_new_piece r s2 else s2

/-- `GameBoard.slide_down`; returns the updated state and the method's
boolean result (`False` exactly when the piece was cemented). -/
def slide_down (r : Int) (s : GState) : GState × Bool :=
  let m := move_piece 0 1 s
  if ¬ m.2 then (cement_piece r m.1, false) else (m.1, true)

/-- Translate every point of a piece down by `dy` rows, as the comprehension
`[QPoint(p.x(), p.y() + dy) for p in current_piece_coords]` does. -/
def translateY (coords : List Pt) (dy : Int) : List Pt :=
  coords.map (fun p => ⟨p.x, p.y + dy⟩)

/-- The `while True` search of `_calculate_shadow_position`, fuelled: keep
increasing `dy` while the next step down is collision-free and return the
last collision-free `dy`.  The fuel only bounds the (always terminating)
source loop; `calc_shadow` passes enough fuel for the loop to reach its
exit condition. -/
def shadowFuel (b : Board) (coords : List Pt) : Nat → Nat → Nat
  | 0, dy => dy
  | fuel + 1, dy =>
    if check_collision b (translateY coords ((dy : Int) + 1)) then
      shadowFuel b coords fuel (dy + 1)
    else dy

/-- `GameBoard._calculate_shadow_position`: `[]` when there is no piece,
otherwise the piece translated down to just above the first colliding
offset. -/
def calc_shadow (b : Board) (coords : List Pt) : List Pt :=
  match coords with
  | [] => []
  | p :: rest =>
    let fuel := (((BOARD_HEIGHT_BLOCKS : Int) - p.y).toNat + 1)
    translateY (p :: rest) ((shadowFuel b (p :: rest) fuel 0 : Nat) : Int)

/-- The shadow computation as the engine method: it reads the state and
returns the projected cells; the source method assigns no field of `self`,
so the state component is returned unchanged. -/
def calcShadowQuery (s : GState) : GState × List Pt :=
  (s, calc_shadow s.board_state s.current_piece_coords)

/-- `GameBoard.drop_piece` (hard drop); `r` is the random draw consumed by
the respawn inside `cement_piece`. -/
def drop_piece (r : Int) (s : GState) : GState :=
  if s.current_piece_coords = [] ∨ s.is_paused then s
  else
    let shadow := (calcShadowQuery s).2
    if shadow = [] then s
    else
      let dy := (shadow.headD ⟨0, 0⟩).y - (s.current_piece_coords.headD ⟨0, 0⟩).y
      cement_piece r
        { s with
          current_pos := ⟨s.current_pos.x, s.current_pos.y + dy⟩
          current_piece_coords := shadow }

/-- `GameBoard.pause_game`. -/
def pause_game (s : GState) : GState :=
  if ¬ s.is_started ∨ s.is_paused then s else { s with is_paused := true }

/-- `GameBoard.resume_game`. -/
def resume_game (s : GState) : GState :=
  if ¬ s.is_started ∨ ¬ s.is_paused then s else { s with is_paused := false }

/-- `GameBoard.start_game`; `r1` is the draw inside `reset_board`, `r2` the
draw inside `create_new_piece`. -/
def start_game (r1 r2 : Int) (s : GState) : GState :=
  let s1 := reset_board r1 s
  let s2 := { s1 with is_started := true, is_paused := false }
  create_new_piece r2 s2

/-- One externally triggered engine command, with the `random.randint(1, 7)`
range recorded as a hypothesis on every drawn value. -/
inductive Step : GState → GState → Prop
  | move (dx dy : Int) (s : GState) : Step s (move_piece dx dy s).1
  | rot (s : GState) : Step s (rotate_piece s)
  | slide (r : Int) (h : 1 ≤ r ∧ r ≤ 7) (s : GState) : Step s (slide_down r s).1
  | drop (r : Int) (h : 1 ≤ r ∧ r ≤ 7) (s : GState) : Step s (drop_piece r s)
  | pause (s : GState) : Step s (pause_game s)
  | resume (s : GState) : Step s (resume_game s)
  | start (r1 r2 : Int) (h1 : 1 ≤ r1 ∧ r1 ≤ 7) (h2 : 1 ≤ r2 ∧ r2 ≤ 7)
      (s : GState) : Step s (start_game r1 r2 s)
  | reset (r : Int) (h : 1 ≤ r ∧ r ≤ 7) (s : GState) : Step s (reset_board r s)

/-- Engine states reachable from a freshly constructed `GameBoard` by
engine commands. -/
inductive Reachable : GState → Prop
  | init (r : Int) (h : 1 ≤ r ∧ r ≤ 7) : Reachable (reset_board r init0)
  | step {s s' : GState} : Reachable s → Step s s' → Reachable s'

/-- The grid-shape well-formedness established by `reset_board`:
`BOARD_HEIGHT_BLOCKS` rows of `BOARD_WIDTH_BLOCKS` cells each. -/
def WFBoard (b : Board) : Prop :=
  b.length = BOARD_HEIGHT_BLOCKS ∧ ∀ row ∈ b, row.length = BOARD_WIDTH_BLOCKS

/-- The rows the rebuild loop keeps (in processing order): those whose index
is not in `toClear`. -/
def keptRows (b : Board) (toClear : List Nat) (idxs : List Nat) : List (List Int) :=
  (idxs.filter (fun oy => decide (oy ∉ toClear))).map (fun oy => b.getD oy [])

/-- The core safety property of the active piece: every occupied cell is in
bounds and over an empty cell of the locked grid. -/
def ValidCells (s : GState) : Prop :=
  ∀ p ∈ s.current_piece_coords,
    0 ≤ p.x ∧ p.x < (BOARD_WIDTH_BLOCKS : Int) ∧ 0 ≤ p.y ∧
      p.y < (BOARD_HEIGHT_BLOCKS : Int) ∧ cellAt s.board_state p.x p.y = NO_BLOCK

/-- The engine invariant: a well-formed grid and a safe active piece. -/
def Inv (s : GState) : Prop :=
  WFBoard s.board_state ∧ ValidCells s

/-- The progression invariant: the level is always the integer quotient of
the cleared-row total by ten. -/
def ProgressInv (s : GState) : Prop :=
  s.level = s.rows_cleared_total / 10

/-- An all-empty 22-row, 10-column grid. -/
def emptyBoard : Board :=
  List.replicate BOARD_HEIGHT_BLOCKS (List.replicate BOARD_WIDTH_BLOCKS NO_BLOCK)

/-- A started, paused state with the O piece (index 1) at pivot (5, 2) over
an empty grid. -/
def pausedState : GState :=
  { init0 with
    board_state := emptyBoard
    current_piece_shape_index := 1
    current_piece_coords := [⟨5, 2⟩, ⟨5, 3⟩, ⟨6, 2⟩, ⟨6, 3⟩]
    current_pos := ⟨5, 2⟩
    next_piece_shape_index := 1
    is_started := true
    is_paused := true }

/-- A grid whose bottom two rows are full, with one extra block at (3, 19). -/
def boardW : Board :=
  ((emptyBoard.set 20 (List.replicate 10 (1 : Int))).set 21
    (List.replicate 10 (1 : Int))).set 19 ((List.replicate 10 (0 : Int)).set 3 2)

/-- A pieceless state over `boardW` at level 0. -/
def stateW : GState :=
  { init0 with board_state := boardW }

/-- A pieceless state at level 2 (25 rows already cleared) over a grid whose
bottom row is full. -/
def stateLvl2 : GState :=
  { init0 with
    board_state := emptyBoard.set 21 (List.replicate 10 (3 : Int))
    score := 100
    level := 2
    rows_cleared_total := 25 }

/-- A state whose spawn cells for the O piece are blocked: (5, 1) holds a
locked block, so `create_new_piece` must top out. -/
def blockedState : GState :=
  { init0 with
    board_state := emptyBoard.set 1 ((List.replicate 10 (0 : Int)).set 5 1)
    next_piece_shape_index := 1
    is_started := true }

/-- A started state with the L piece (index 4) at pivot (5, 2) and a locked
block at (4, 1): the first rotation is collision-free, the second collides
with (4, 1). -/
def rotateState : GState :=
  { init0 with
    board_state := emptyBoard.set 1 ((List.replicate 10 (0 : Int)).set 4 1)
    current_piece_shape_index := 4
    current_piece_coords := [⟨5, 2⟩, ⟨4, 2⟩, ⟨6, 2⟩, ⟨6, 3⟩]
    current_pos := ⟨5, 2⟩
    next_piece_shape_index := 1
    is_started := true }

/-- A started state with the T piece (index 3) at pivot (5, 5) over an
empty grid: all four rotations are collision-free there. -/
def tState : GState :=
  { init0 with
    board_state := emptyBoard
    current_piece_shape_index := 3
    current_piece_coords := [⟨5, 4⟩, ⟨5, 5⟩, ⟨6, 5⟩, ⟨4, 5⟩]
    current_pos := ⟨5, 5⟩
    next_piece_shape_index := 1
    is_started := true }

/-- A grid with a single locked block at (5, 10), leaving empty space both
above and below it. -/
def shadowBoard : Board :=
  emptyBoard.set 10 ((List.replicate 10 (0 : Int)).set 5 1)

/-- The O piece at pivot (5, 2), above the block of `shadowBoard`. -/
def shadowPiece : List Pt :=
  [⟨5, 2⟩, ⟨5, 3⟩, ⟨6, 2⟩, ⟨6, 3⟩]

/-- A started state combining `shadowBoard` and `shadowPiece`. -/
def sShadow : GState :=
  { init0 with
    board_state := shadowBoard
    current_piece_shape_index := 1
    current_piece_coords := shadowPiece
    current_pos := ⟨5, 2⟩
    next_piece_shape_index := 1
    is_started := true }

/-- A coordinate list containing out-of-bounds points (negative column,
row past the bottom) and one in-bounds point. -/
def oobCoords : List Pt :=
  [⟨-3, 5⟩, ⟨4, 25⟩, ⟨2, 2⟩]

/-- A point is in bounds and over an empty cell exactly when the loop body
of `check_collision` accepts it. -/
theorem validPoint_eq_true {b : Board} {p : Pt} :
    validPoint b p = true ↔
      0 ≤ p.x ∧ p.x < (BOARD_WIDTH_BLOCKS : Int) ∧ 0 ≤ p.y ∧
        p.y < (BOARD_HEIGHT_BLOCKS : Int) ∧ cellAt b p.x p.y = NO_BLOCK := by
  unfold validPoint
  split
  · rename_i h
    constructor
    · intro hf; cases hf
    · rintro ⟨hx0, hx1, hy0, hy1, -⟩
      rcases h with h | h | h | h <;> omega
  · rename_i h
    push_neg at h
    obtain ⟨hx0, hx1, hy0, hy1⟩ := h
    split
    · rename_i h2
      constructor
      · intro hf; cases hf
      · rintro ⟨-, -, -, -, hc⟩
        exact absurd hc h2.2
    · rename_i h2
      push_neg at h2
      refine iff_of_true rfl ⟨hx0, hx1, hy0, hy1, ?_⟩
      by_contra hc
      exact hc (h2 ⟨hy0, hy1⟩)

/-- `check_collision` succeeds exactly when every point is in bounds and
over an empty cell. -/
theorem check_collision_eq_true {b : Board} {coords : List Pt} :
    check_collision b coords = true ↔
      ∀ p ∈ coords, 0 ≤ p.x ∧ p.x < (BOARD_WIDTH_BLOCKS : Int) ∧ 0 ≤ p.y ∧
        p.y < (BOARD_HEIGHT_BLOCKS : Int) ∧ cellAt b p.x p.y = NO_BLOCK := by
  unfold check_collision
  rw [List.all_eq_true]
  constructor
  · intro h p hp; exact validPoint_eq_true.mp (h p hp)
  · intro h p hp; exact validPoint_eq_true.mpr (h p hp)

/-- Any piece containing an out-of-bounds point is reported as colliding. -/
theorem check_collision_eq_false_of_oob {b : Board} {coords : List Pt} {p : Pt}
    (hp : p ∈ coords)
    (hoob : p.x < 0 ∨ (BOARD_WIDTH_BLOCKS : Int) ≤ p.x ∨ p.y < 0 ∨
      (BOARD_HEIGHT_BLOCKS : Int) ≤ p.y) :
    check_collision b coords = false := by
  by_contra h
  have h' := check_collision_eq_true.mp (by
    cases hcc : check_collision b coords
    · exact absurd hcc h
    · rfl)
  obtain ⟨hx0, hx1, hy0, hy1, -⟩ := h' p hp
  rcases hoob with h | h | h | h <;> omega

/-- Setting a cell does not change the number of rows. -/
theorem length_setCell (b : Board) (x y v : Int) :
    (setCell b x y v).length = b.length :=
  List.length_set b y.toNat _

/-- Setting a cell preserves the grid shape. -/
theorem WFBoard_setCell {b : Board} (h : WFBoard b) (x y v : Int) :
    WFBoard (setCell b x y v) := by
  by_cases hy : y.toNat < b.length
  · obtain ⟨hlen, hrows⟩ := h
    constructor
    · rw [length_setCell]; exact hlen
    · intro row hrow
      rcases List.mem_or_eq_of_mem_set hrow with h1 | h1
      · exact hrows row h1
      · subst h1
        rw [List.length_set]
        have hg : b.getD y.toNat [] = b[y.toNat] := by
          rw [List.getD_eq_getElem?_getD, List.getElem?_eq_getElem hy]
          rfl
        rw [hg]
        exact hrows _ (List.getElem_mem hy)
  · unfold setCell
    rw [List.set_eq_of_length_le (Nat.le_of_not_lt hy)]
    exact h

/-- Reading a list position just overwritten, with default. -/
theorem getD_set_self {l : List α} {n : Nat} (h : n < l.length) (a d : α) :
    (l.set n a).getD n d = a := by
  rw [List.getD_eq_getElem?_getD, List.getElem?_set_self h]
  rfl

/-- Reading a list position other than the overwritten one, with default. -/
theorem getD_set_ne {l : List α} {m n : Nat} (h : m ≠ n) (a d : α) :
    (l.set m a).getD n d = l.getD n d := by
  rw [List.getD_eq_getElem?_getD, List.getElem?_set_ne h,
    ← List.getD_eq_getElem?_getD]

/-- Reading back the cell just written, on a well-formed board. -/
theorem cellAt_setCell_self {b : Board} (hwf : WFBoard b) {x y : Int} (v : Int)
    (hx0 : 0 ≤ x) (hx1 : x < (BOARD_WIDTH_BLOCKS : Int))
    (hy0 : 0 ≤ y) (hy1 : y < (BOARD_HEIGHT_BLOCKS : Int)) :
    cellAt (setCell b x y v) x y = v := by
  obtain ⟨hlen, hrows⟩ := hwf
  have hH : BOARD_HEIGHT_BLOCKS = 22 := rfl
  have hW : BOARD_WIDTH_BLOCKS = 10 := rfl
  have hyn : y.toNat < b.length := by omega
  have hg : b.getD y.toNat [] = b[y.toNat] := by
    rw [List.getD_eq_getElem?_getD, List.getElem?_eq_getElem hyn]
    rfl
  have hxr : x.toNat < (b.getD y.toNat []).length := by
    rw [hg, hrows _ (List.getElem_mem hyn)]
    omega
  unfold cellAt setCell
  rw [getD_set_self hyn, getD_set_self hxr]

/-- A write at `(x, y)` leaves every other cell unchanged. -/
theorem cellAt_setCell_ne {b : Board} {x y x' y' : Int} (v : Int)
    (h : y'.toNat = y.toNat → x'.toNat ≠ x.toNat) :
    cellAt (setCell b x y v) x' y' = cellAt b x' y' := by
  by_cases hyy : y'.toNat = y.toNat
  · have hxx := h hyy
    unfold cellAt setCell
    rw [hyy]
    by_cases hlt : y.toNat < b.length
    · rw [getD_set_self hlt, getD_set_ne (fun he => hxx he.symm)]
    · rw [List.set_eq_of_length_le (Nat.le_of_not_lt hlt)]
  · unfold cellAt setCell
    rw [getD_set_ne (fun he => hyy he.symm)]

/-- Unfolding one iteration of the locking loop. -/
theorem lockCells_cons (b : Board) (p : Pt) (rest : List Pt) (idx : Int) :
    lockCells b (p :: rest) idx =
      lockCells
        (if (0 ≤ p.y ∧ p.y < (BOARD_HEIGHT_BLOCKS : Int)) ∧
            (0 ≤ p.x ∧ p.x < (BOARD_WIDTH_BLOCKS : Int)) then
          setCell b p.x p.y idx
        else b)
        rest idx :=
  rfl

/-- The locking loop does not change the number of rows. -/
theorem length_lockCells (coords : List Pt) (b : Board) (idx : Int) :
    (lockCells b coords idx).length = b.length := by
  induction coords generalizing b with
  | nil => rfl
  | cons p rest ih =>
    rw [lockCells_cons, ih]
    split
    · exact length_setCell ..
    · rfl

/-- The locking loop preserves the grid shape. -/
theorem WFBoard_lockCells (coords : List Pt) {b : Board} (h : WFBoard b) (idx : Int) :
    WFBoard (lockCells b coords idx) := by
  induction coords generalizing b with
  | nil => exact h
  | cons p rest ih =>
    rw [lockCells_cons]
    apply ih
    split
    · exact WFBoard_setCell h ..
    · exact h

/-- The locking loop touches no in-bounds cell other than the listed ones. -/
theorem cellAt_lockCells_not_mem (coords : List Pt) (b : Board) (idx : Int)
    {x y : Int} (hx0 : 0 ≤ x) (hy0 : 0 ≤ y)
    (hnm : (⟨x, y⟩ : Pt) ∉ coords) :
    cellAt (lockCells b coords idx) x y = cellAt b x y := by
  induction coords generalizing b with
  | nil => rfl
  | cons p rest ih =>
    have hnm' : (⟨x, y⟩ : Pt) ∉ rest := fun hc => hnm (List.mem_cons_of_mem p hc)
    have hne : (⟨x, y⟩ : Pt) ≠ p := fun hc => hnm (hc ▸ List.mem_cons_self p rest)
    rw [lockCells_cons, ih]
    · split
      · rename_i hg
        apply cellAt_setCell_ne
        intro hyy hxx
        have hy' : y = p.y := by omega
        have hx' : x = p.x := by omega
        exact hne (by cases p; simp_all)
      · rfl
    · exact hnm'

/-- `getD` agrees with `getElem` in range. -/
theorem getD_eq_getElem_of_lt {l : List α} {n : Nat} (h : n < l.length) (d : α) :
    l.getD n d = l[n] := by
  rw [List.getD_eq_getElem?_getD, List.getElem?_eq_getElem h]
  rfl

/-- Python indexing with a nonnegative index is plain list indexing. -/
theorem pyGet_nonneg {l : List α} {i : Int} (h0 : 0 ≤ i) :
    pyGet l i = l[i.toNat]? := by
  unfold pyGet pyIdx
  have hni : ¬ i < 0 := by omega
  by_cases h1 : i < (l.length : Int)
  · simp [hni, h0, h1, List.get?_eq_getElem?]
  · have hle : l.length ≤ i.toNat := by omega
    simp [hni, h0, h1, List.getElem?_eq_none hle]

/-- Python element assignment with a nonnegative in-range index succeeds
and is plain `List.set`. -/
theorem pySetL_nonneg {l : List α} {i : Int} (v : α) (h0 : 0 ≤ i)
    (h1 : i < (l.length : Int)) :
    pySetL l i v = some (l.set i.toNat v) := by
  unfold pySetL pyIdx
  have hni : ¬ i < 0 := by omega
  simp [hni, h0, h1]

/-- On a well-formed grid the exception-aware collision check never raises
and agrees with the total model. -/
theorem check_collision_opt_eq {b : Board} (hwf : WFBoard b) :
    ∀ coords : List Pt, check_collision_opt b coords = some (check_collision b coords) := by
  intro coords
  induction coords with
  | nil => rfl
  | cons p rest ih =>
    obtain ⟨hlen, hrows⟩ := hwf
    have hH : BOARD_HEIGHT_BLOCKS = 22 := rfl
    have hW : BOARD_WIDTH_BLOCKS = 10 := rfl
    unfold check_collision_opt
    by_cases hoob : p.x < 0 ∨ p.x ≥ (BOARD_WIDTH_BLOCKS : Int) ∨ p.y < 0 ∨
        p.y ≥ (BOARD_HEIGHT_BLOCKS : Int)
    · rw [if_pos hoob]
      have hv : validPoint b p = false := by
        unfold validPoint
        rw [if_pos hoob]
      unfold check_collision
      rw [List.all_cons, hv]
      rfl
    · rw [if_neg hoob]
      push_neg at hoob
      obtain ⟨hx0, hx1, hy0, hy1⟩ := hoob
      have hyn : p.y.toNat < b.length := by omega
      have hrow : pyGet b p.y = some b[p.y.toNat] :=
        (pyGet_nonneg hy0).trans (List.getElem?_eq_getElem hyn)
      have hxr : p.x.toNat < b[p.y.toNat].length := by
        rw [hrows _ (List.getElem_mem hyn)]
        omega
      have hcell : pyGet b[p.y.toNat] p.x = some (b[p.y.toNat])[p.x.toNat] :=
        (pyGet_nonneg hx0).trans (List.getElem?_eq_getElem hxr)
      have hca : cellAt b p.x p.y = (b[p.y.toNat])[p.x.toNat] := by
        unfold cellAt
        rw [getD_eq_getElem_of_lt hyn, getD_eq_getElem_of_lt hxr]
      have hguard : 0 ≤ p.y ∧ p.y < (BOARD_HEIGHT_BLOCKS : Int) := ⟨hy0, hy1⟩
      rw [if_pos hguard, hrow, Option.some_bind, hcell]
      by_cases hc : (b[p.y.toNat])[p.x.toNat] ≠ NO_BLOCK
      · have hvf : validPoint b p = false := by
          unfold validPoint
          rw [if_neg (fun hcon => by rcases hcon with h | h | h | h <;> omega),
            if_pos ⟨hguard, hca ▸ hc⟩]
        have hccf : check_collision b (p :: rest) = false := by
          unfold check_collision
          rw [List.all_cons, hvf, Bool.false_and]
        rw [Option.map_some', decide_eq_true hc, hccf]
      · have hvt : validPoint b p = true := by
          unfold validPoint
          rw [if_neg (fun hcon => by rcases hcon with h | h | h | h <;> omega),
            if_neg (fun hh => hc (hca ▸ hh.2))]
        have hcct : check_collision b (p :: rest) = check_collision b rest := by
          unfold check_collision
          rw [List.all_cons, hvt, Bool.true_and]
        rw [Option.map_some', decide_eq_false hc, hcct, ← ih]

/-- On a well-formed grid the exception-aware locking loop never raises and
agrees with the total model. -/
theorem lockCellsOpt_eq (coords : List Pt) {b : Board} (hwf : WFBoard b) (idx : Int) :
    lockCellsOpt b coords idx = some (lockCells b coords idx) := by
  induction coords generalizing b with
  | nil => rfl
  | cons p rest ih =>
    rw [lockCells_cons]
    unfold lockCellsOpt
    rw [List.foldlM_cons]
    by_cases hg : (0 ≤ p.y ∧ p.y < (BOARD_HEIGHT_BLOCKS : Int)) ∧
        (0 ≤ p.x ∧ p.x < (BOARD_WIDTH_BLOCKS : Int))
    · obtain ⟨⟨hy0, hy1⟩, hx0, hx1⟩ := hg
      obtain ⟨hlen, hrows⟩ := hwf
      have hH : BOARD_HEIGHT_BLOCKS = 22 := rfl
      have hW : BOARD_WIDTH_BLOCKS = 10 := rfl
      have hyn : p.y.toNat < b.length := by omega
      have hrow : pyGet b p.y = some b[p.y.toNat] :=
        (pyGet_nonneg hy0).trans (List.getElem?_eq_getElem hyn)
      have hxr : p.x < (b[p.y.toNat].length : Int) := by
        rw [hrows _ (List.getElem_mem hyn)]
        omega
      have hset : setCell b p.x p.y idx =
          b.set p.y.toNat (b[p.y.toNat].set p.x.toNat idx) := by
        unfold setCell
        rw [getD_eq_getElem_of_lt hyn]
      have hyb : p.y < (b.length : Int) := by omega
      have hgg : (0 ≤ p.y ∧ p.y < (BOARD_HEIGHT_BLOCKS : Int)) ∧
          (0 ≤ p.x ∧ p.x < (BOARD_WIDTH_BLOCKS : Int)) := ⟨⟨hy0, hy1⟩, hx0, hx1⟩
      rw [if_pos hgg, if_pos hgg, hrow, Option.some_bind,
        pySetL_nonneg idx hx0 hxr, Option.some_bind, pySetL_nonneg _ hy0 hyb,
        ← hset]
      exact ih (WFBoard_setCell ⟨hlen, hrows⟩ p.x p.y idx)
    · rw [if_neg hg, if_neg hg]
      exact ih hwf

/-- Translating by zero rows is the identity. -/
theorem translateY_zero (coords : List Pt) : translateY coords 0 = coords := by
  unfold translateY
  have h : (fun p : Pt => (⟨p.x, p.y + 0⟩ : Pt)) = id := by
    funext p
    cases p
    simp
  rw [h, List.map_id]

/-- Unfolding the fuelled descent loop at zero fuel. -/
theorem shadowFuel_zero (b : Board) (coords : List Pt) (dy : Nat) :
    shadowFuel b coords 0 dy = dy :=
  rfl

/-- Unfolding one step of the fuelled descent loop. -/
theorem shadowFuel_succ (b : Board) (coords : List Pt) (fuel dy : Nat) :
    shadowFuel b coords (fuel + 1) dy =
      if check_collision b (translateY coords ((dy : Int) + 1)) then
        shadowFuel b coords fuel (dy + 1)
      else dy :=
  rfl

/-- The fuelled descent loop: provided the position `fuel` steps below the
start already collides, the loop returns the row offset just above the
first colliding offset, and every intermediate offset is collision-free. -/
theorem shadowFuel_spec (b : Board) (coords : List Pt) :
    ∀ (fuel dy : Nat),
      check_collision b (translateY coords ((dy : Int) + (fuel : Int) + 1)) = false →
      dy ≤ shadowFuel b coords fuel dy ∧
      check_collision b
        (translateY coords ((shadowFuel b coords fuel dy : Int) + 1)) = false ∧
      ∀ j : Nat, dy + 1 ≤ j → j ≤ shadowFuel b coords fuel dy →
        check_collision b (translateY coords (j : Int)) = true := by
  intro fuel
  induction fuel with
  | zero =>
    intro dy h
    refine ⟨le_rfl, ?_, ?_⟩
    · rw [shadowFuel_zero]
      simpa using h
    · intro j h1 h2
      rw [shadowFuel_zero] at h2
      omega
  | succ fuel ih =>
    intro dy h
    by_cases hstep : check_collision b (translateY coords ((dy : Int) + 1)) = true
    · have hred : shadowFuel b coords (fuel + 1) dy = shadowFuel b coords fuel (dy + 1) := by
        rw [shadowFuel_succ, if_pos hstep]
      have hnext : check_collision b
          (translateY coords (((dy + 1 : Nat) : Int) + (fuel : Int) + 1)) = false := by
        have harith : (((dy + 1 : Nat) : Int) + (fuel : Int) + 1) =
            ((dy : Int) + ((fuel + 1 : Nat) : Int) + 1) := by
          push_cast
          ring
        rw [harith]
        exact h
      obtain ⟨h1, h2, h3⟩ := ih (dy + 1) hnext
      rw [hred]
      refine ⟨by omega, h2, ?_⟩
      intro j hj1 hj2
      by_cases hje : j = dy + 1
      · subst hje
        have : ((dy + 1 : Nat) : Int) = (dy : Int) + 1 := by push_cast; ring
        rw [this]
        exact hstep
      · exact h3 j (by omega) hj2
    · have hred : shadowFuel b coords (fuel + 1) dy = dy := by
        rw [shadowFuel_succ, if_neg hstep]
      rw [hred]
      refine ⟨le_rfl, ?_, ?_⟩
      · cases hcc : check_collision b (translateY coords ((dy : Int) + 1))
        · rfl
        · exact absurd hcc hstep
      · intro j h1 h2
        omega

/-- Characterisation of `_calculate_shadow_position` on a nonempty piece:
the result is the piece translated down by some `d ≥ 0` such that offset
`d + 1` collides while every offset `1..d` is collision-free. -/
theorem calc_shadow_spec (b : Board) (p : Pt) (rest : List Pt) :
    ∃ d : Nat,
      calc_shadow b (p :: rest) = translateY (p :: rest) (d : Int) ∧
      check_collision b (translateY (p :: rest) ((d : Int) + 1)) = false ∧
      ∀ j : Nat, 1 ≤ j → j ≤ d →
        check_collision b (translateY (p :: rest) (j : Int)) = true := by
  set fuel := (((BOARD_HEIGHT_BLOCKS : Int) - p.y).toNat + 1) with hfueldef
  have hmem : (⟨p.x, p.y + ((0 : Nat) + (fuel : Int) + 1)⟩ : Pt) ∈
      translateY (p :: rest) ((0 : Nat) + (fuel : Int) + 1) := by
    unfold translateY
    exact List.mem_map_of_mem _ (List.mem_cons_self p rest)
  have hoob : check_collision b
      (translateY (p :: rest) (((0 : Nat) : Int) + (fuel : Int) + 1)) = false := by
    apply check_collision_eq_false_of_oob hmem
    right; right; right
    show (BOARD_HEIGHT_BLOCKS : Int) ≤ p.y + (((0 : Nat) : Int) + (fuel : Int) + 1)
    have hH : BOARD_HEIGHT_BLOCKS = 22 := rfl
    omega
  obtain ⟨h1, h2, h3⟩ := shadowFuel_spec b (p :: rest) fuel 0 hoob
  exact ⟨shadowFuel b (p :: rest) fuel 0, rfl, h2, fun j hj1 hj2 => h3 j (by omega) hj2⟩

/-- When the current position is collision-free, so is the shadow position,
and the shadow of a nonempty piece is nonempty. -/
theorem calc_shadow_valid {b : Board} {coords : List Pt}
    (hne : coords ≠ []) (hcur : check_collision b coords = true) :
    check_collision b (calc_shadow b coords) = true ∧ calc_shadow b coords ≠ [] := by
  match coords, hne with
  | p :: rest, _ =>
    obtain ⟨d, heq, -, h3⟩ := calc_shadow_spec b p rest
    rw [heq]
    constructor
    · rcases Nat.eq_zero_or_pos d with hd | hd
      · subst hd
        rw [show ((0 : Nat) : Int) = 0 from rfl, translateY_zero]
        exact hcur
      · exact h3 d hd le_rfl
    · unfold translateY
      simp

/-- Taking a prefix that ends at or before an overwritten position ignores
the write. -/
theorem take_set_of_le {l : List α} {i m : Nat} (h : m ≤ i) (a : α) :
    (l.set i a).take m = l.take m := by
  apply List.ext_getElem
  · simp [List.length_take]
  · intro n h1 h2
    rw [List.getElem_take, List.getElem_take, List.getElem_set,
      if_neg (by simp [List.length_take] at h1; omega)]

/-- Dropping strictly past an overwritten position ignores the write. -/
theorem drop_set_of_lt {l : List α} {i m : Nat} (h : i < m) (a : α) :
    (l.set i a).drop m = l.drop m := by
  apply List.ext_getElem
  · simp
  · intro n h1 h2
    rw [List.getElem_drop, List.getElem_drop, List.getElem_set, if_neg (by omega)]

/-- Dropping exactly at an overwritten position exposes the written value. -/
theorem drop_set_self {l : List α} {i : Nat} (h : i < l.length) (a : α) :
    (l.set i a).drop i = a :: l.drop (i + 1) := by
  have h' : i < (l.set i a).length := by simpa using h
  rw [List.drop_eq_getElem_cons h', List.getElem_set, if_pos rfl,
    drop_set_of_lt (Nat.lt_succ_self i)]

/-- Unfolding one iteration of the rebuild loop. -/
theorem rebuildLoop_cons (b : Board) (toClear : List Nat) (oy : Nat)
    (rest : List Nat) (nb : Board) (ni : Int) :
    rebuildLoop b toClear (oy :: rest) nb ni =
      if oy ∈ toClear then rebuildLoop b toClear rest nb ni
      else if 0 ≤ ni then
        rebuildLoop b toClear rest (nb.set ni.toNat (b.getD oy [])) (ni - 1)
      else rebuildLoop b toClear rest nb ni :=
  rfl

/-- The rebuild loop places the kept rows (in reverse processing order) at
positions `ni, ni - 1, ...` of `nb`, leaving the rest of `nb` alone. -/
theorem rebuildLoop_eq (b : Board) (toClear : List Nat) :
    ∀ (idxs : List Nat) (nb : Board) (ni : Int),
      ((keptRows b toClear idxs).length : Int) ≤ ni + 1 →
      ni < (nb.length : Int) →
      rebuildLoop b toClear idxs nb ni =
        nb.take (ni + 1 - ((keptRows b toClear idxs).length : Int)).toNat ++
          (keptRows b toClear idxs).reverse ++ nb.drop (ni + 1).toNat := by
  intro idxs
  induction idxs with
  | nil =>
    intro nb ni h1 h2
    show nb = _
    have hk : keptRows b toClear [] = [] := rfl
    rw [hk]
    simp only [List.length_nil, List.reverse_nil, List.append_nil, Nat.cast_zero,
      sub_zero]
    rw [List.take_append_drop]
  | cons oy rest ih =>
    intro nb ni h1 h2
    by_cases hmem : oy ∈ toClear
    · have hk : keptRows b toClear (oy :: rest) = keptRows b toClear rest := by
        unfold keptRows
        rw [List.filter_cons, if_neg (by simpa using hmem)]
      rw [hk] at h1
      rw [rebuildLoop_cons, if_pos hmem, hk]
      exact ih nb ni h1 h2
    · have hk : keptRows b toClear (oy :: rest) =
          b.getD oy [] :: keptRows b toClear rest := by
        unfold keptRows
        rw [List.filter_cons, if_pos (by simpa using hmem)]
        rfl
      rw [rebuildLoop_cons, if_neg hmem]
      rw [hk] at h1 ⊢
      rw [List.length_cons] at h1
      have hni0 : 0 ≤ ni := by
        push_cast at h1
        omega
      rw [if_pos hni0]
      have hlen' : ((keptRows b toClear rest).length : Int) ≤ (ni - 1) + 1 := by
        push_cast at h1
        omega
      have hlen2 : ni - 1 < (((nb.set ni.toNat (b.getD oy [])).length : Nat) : Int) := by
        rw [List.length_set]
        omega
      rw [ih _ _ hlen' hlen2]
      have e1 : (nb.set ni.toNat (b.getD oy [])).take
            (ni - 1 + 1 - ((keptRows b toClear rest).length : Int)).toNat =
          nb.take (ni - 1 + 1 - ((keptRows b toClear rest).length : Int)).toNat :=
        take_set_of_le (by omega) _
      have hnin : ni.toNat < nb.length := by omega
      have e2 : (nb.set ni.toNat (b.getD oy [])).drop (ni - 1 + 1).toNat =
          b.getD oy [] :: nb.drop (ni.toNat + 1) := by
        have : (ni - 1 + 1).toNat = ni.toNat := by omega
        rw [this, drop_set_self hnin]
      rw [e1, e2]
      have e3 : (ni + 1 - (((keptRows b toClear rest).length : Int) + 1)).toNat =
          (ni - 1 + 1 - ((keptRows b toClear rest).length : Int)).toNat := by
        omega
      have e4 : (ni + 1).toNat = ni.toNat + 1 := by omega
      rw [List.length_cons]
      push_cast
      rw [e4]
      have e5 : (ni + 1 - (((keptRows b toClear rest).length : Int) + 1)).toNat =
          (ni - 1 + 1 - ((keptRows b toClear rest).length : Int)).toNat := e3
      rw [show ((keptRows b toClear rest).length : Int) + 1 =
          (((keptRows b toClear rest).length : Int) + 1) from rfl]
      rw [List.reverse_cons]
      rw [e3]
      simp [List.append_assoc]

/-- Selecting rows of a list by index through `range`/`filter`/`map` is the
same as filtering the list directly. -/
theorem range_filter_map_getD (l : List (List Int)) (p : List Int → Bool) :
    ((List.range l.length).filter (fun i => p (l.getD i []))).map
        (fun i => l.getD i []) = l.filter p := by
  induction l with
  | nil => rfl
  | cons a t ih =>
    have hq : ((fun i => p ((a :: t).getD i [])) ∘ Nat.succ) =
        (fun i => p (t.getD i [])) := by
      funext i
      simp [Function.comp, List.getD_cons_succ]
    have hg : ((fun i => (a :: t).getD i []) ∘ Nat.succ) =
        (fun i => t.getD i []) := by
      funext i
      simp [Function.comp, List.getD_cons_succ]
    rw [List.length_cons, List.range_succ_eq_map]
    by_cases hpa : p a
    · have hc0 : p ((a :: t).getD 0 []) = true := by
        rw [List.getD_cons_zero]
        exact hpa
      rw [List.filter_cons, if_pos hc0, List.map_cons, List.filter_map, hq,
        List.map_map, hg, ih, List.filter_cons, if_pos hpa, List.getD_cons_zero]
    · have hc0 : ¬ p ((a :: t).getD 0 []) = true := by
        rw [List.getD_cons_zero]
        exact hpa
      rw [List.filter_cons, if_neg hc0, List.filter_map, hq, List.map_map, hg,
        ih, List.filter_cons, if_neg hpa]

/-- The indices in `lines_to_clear` name exactly the full rows of the grid. -/
theorem linesToClear_map {b : Board} (hlen : b.length = BOARD_HEIGHT_BLOCKS) :
    (linesToClear b).map (fun y => b.getD y []) = b.filter isFullRow := by
  unfold linesToClear
  rw [← hlen]
  exact range_filter_map_getD b isFullRow

/-- `num_cleared` is the number of full rows. -/
theorem linesToClear_length {b : Board} (hlen : b.length = BOARD_HEIGHT_BLOCKS) :
    (linesToClear b).length = (b.filter isFullRow).length := by
  rw [← linesToClear_map hlen, List.length_map]

/-- The rows kept by the rebuild loop over the full index range are exactly
the non-full rows, in order. -/
theorem keptRows_range {b : Board} (hlen : b.length = BOARD_HEIGHT_BLOCKS) :
    keptRows b (linesToClear b) (List.range BOARD_HEIGHT_BLOCKS) =
      b.filter (fun row => !isFullRow row) := by
  unfold keptRows
  have hcongr : ∀ oy ∈ List.range BOARD_HEIGHT_BLOCKS,
      decide (oy ∉ linesToClear b) = !isFullRow (b.getD oy []) := by
    intro oy hoy
    by_cases hf : isFullRow (b.getD oy [])
    · have hmem : oy ∈ linesToClear b := by
        unfold linesToClear
        exact List.mem_filter.mpr ⟨hoy, hf⟩
      rw [hf, decide_eq_false (fun hn => hn hmem)]
      rfl
    · have hmem : oy ∉ linesToClear b := fun hc =>
        hf (List.mem_filter.mp hc).2
      have hff : isFullRow (b.getD oy []) = false := by
        cases hft : isFullRow (b.getD oy [])
        · rfl
        · exact absurd hft hf
      rw [hff, decide_eq_true hmem]
      rfl
  rw [List.filter_congr hcongr, ← hlen]
  exact range_filter_map_getD b (fun row => !isFullRow row)

/-- When `lines_to_clear` is empty, no row of a well-formed grid is full. -/
theorem linesToClear_nil {b : Board} (hwf : WFBoard b)
    (hnil : linesToClear b = []) :
    b.filter isFullRow = [] ∧ b.filter (fun row => !isFullRow row) = b := by
  obtain ⟨hlen, -⟩ := hwf
  have hH : BOARD_HEIGHT_BLOCKS = 22 := rfl
  have hnofull : ∀ row ∈ b, isFullRow row = false := by
    intro row hrow
    obtain ⟨i, hi, hbi⟩ := List.getElem_of_mem hrow
    have hgd : b.getD i [] = row := by
      rw [getD_eq_getElem_of_lt hi]
      exact hbi
    have hir : i ∈ List.range BOARD_HEIGHT_BLOCKS := List.mem_range.mpr (by omega)
    by_contra hf
    have hft : isFullRow (b.getD i []) = true := by
      rw [hgd]
      cases hft : isFullRow row
      · exact absurd hft hf
      · rfl
    have hmem : i ∈ linesToClear b := List.mem_filter.mpr ⟨hir, hft⟩
    rw [hnil] at hmem
    exact List.not_mem_nil i hmem
  constructor
  · exact List.filter_eq_nil_iff.mpr (fun row hrow => by
      rw [hnofull row hrow]
      exact Bool.false_ne_true)
  · exact List.filter_eq_self.mpr (fun row hrow => by
      rw [hnofull row hrow]
      rfl)

/-- `clear_lines` does nothing when no row is full. -/
theorem clear_lines_of_nil {s : GState} (hnil : linesToClear s.board_state = []) :
    clear_lines s = s := by
  simp only [clear_lines]
  rw [if_pos hnil]

/-- `clear_lines` never changes the piece, pivot, game flags or next-piece
of the state. -/
theorem clear_lines_keeps (s : GState) :
    (clear_lines s).current_piece_coords = s.current_piece_coords ∧
    (clear_lines s).current_piece_shape_index = s.current_piece_shape_index ∧
    (clear_lines s).current_pos = s.current_pos ∧
    (clear_lines s).is_started = s.is_started ∧
    (clear_lines s).is_paused = s.is_paused ∧
    (clear_lines s).next_piece_shape_index = s.next_piece_shape_index := by
  by_cases hnil : linesToClear s.board_state = []
  · rw [clear_lines_of_nil hnil]
    exact ⟨rfl, rfl, rfl, rfl, rfl, rfl⟩
  · simp only [clear_lines]
    rw [if_neg hnil]
    exact ⟨rfl, rfl, rfl, rfl, rfl, rfl⟩

/-- The progression updates of `clear_lines` when at least one row is full:
the score gain uses the pre-update level, and the level only moves up. -/
theorem clear_lines_progress_pos {s : GState}
    (hne : ¬ linesToClear s.board_state = []) :
    (clear_lines s).score = s.score +
      (linesToClear s.board_state).length * (linesToClear s.board_state).length *
        (s.level + 1) * 10 ∧
    (clear_lines s).rows_cleared_total =
      s.rows_cleared_total + (linesToClear s.board_state).length ∧
    (clear_lines s).level =
      (if (s.rows_cleared_total + (linesToClear s.board_state).length) / 10 > s.level
        then (s.rows_cleared_total + (linesToClear s.board_state).length) / 10
        else s.level) := by
  simp only [clear_lines]
  rw [if_neg hne]
  exact ⟨rfl, rfl, rfl⟩

/-- Bool form of the complement count used below. -/
theorem filter_length_split (b : Board) :
    (b.filter isFullRow).length + (b.filter (fun row => !isFullRow row)).length =
      b.length := by
  have h := List.length_eq_countP_add_countP isFullRow b
  have hfe : (fun a : List Int => decide ¬(isFullRow a = true)) =
      (fun a : List Int => !isFullRow a) := by
    funext a
    cases ha : isFullRow a <;> simp [ha]
  rw [List.countP_eq_length_filter, List.countP_eq_length_filter, hfe] at h
  omega

/-- The grid after `clear_lines`: the cleared rows are removed, the kept
rows stay in order at the bottom, and as many empty rows appear on top as
rows were cleared. -/
theorem clear_lines_board {s : GState} (hwf : WFBoard s.board_state) :
    (clear_lines s).board_state =
      List.replicate (s.board_state.filter isFullRow).length emptyRow ++
        s.board_state.filter (fun row => !isFullRow row) := by
  obtain ⟨hlen, hrows⟩ := hwf
  have hH : BOARD_HEIGHT_BLOCKS = 22 := rfl
  by_cases hnil : linesToClear s.board_state = []
  · obtain ⟨h1, h2⟩ := linesToClear_nil ⟨hlen, hrows⟩ hnil
    rw [clear_lines_of_nil hnil, h1, h2]
    rfl
  · simp only [clear_lines]
    rw [if_neg hnil]
    show rebuildLoop s.board_state (linesToClear s.board_state)
        (List.range BOARD_HEIGHT_BLOCKS).reverse
        (List.replicate BOARD_HEIGHT_BLOCKS emptyRow)
        ((BOARD_HEIGHT_BLOCKS : Int) - 1) = _
    set b := s.board_state with hb
    have hkeptrev : keptRows b (linesToClear b)
        ((List.range BOARD_HEIGHT_BLOCKS).reverse) =
        (keptRows b (linesToClear b) (List.range BOARD_HEIGHT_BLOCKS)).reverse := by
      unfold keptRows
      rw [List.filter_reverse, List.map_reverse]
    have hkept := keptRows_range (b := b) hlen
    have hmle : (b.filter (fun row => !isFullRow row)).length ≤ b.length :=
      List.length_filter_le _ _
    have hcount := filter_length_split b
    have hlenkept : (keptRows b (linesToClear b)
        ((List.range BOARD_HEIGHT_BLOCKS).reverse)).length =
        (b.filter (fun row => !isFullRow row)).length := by
      rw [hkeptrev, List.length_reverse, hkept]
    have h1 : ((keptRows b (linesToClear b)
        ((List.range BOARD_HEIGHT_BLOCKS).reverse)).length : Int) ≤
        ((BOARD_HEIGHT_BLOCKS : Int) - 1) + 1 := by
      rw [hlenkept]
      push_cast
      omega
    have h2 : (BOARD_HEIGHT_BLOCKS : Int) - 1 <
        ((List.replicate BOARD_HEIGHT_BLOCKS emptyRow).length : Int) := by
      rw [List.length_replicate]
      push_cast
      omega
    rw [rebuildLoop_eq b (linesToClear b) _ _ _ h1 h2, hkeptrev, hkept,
      List.reverse_reverse, List.length_reverse]
    have e1 : ((BOARD_HEIGHT_BLOCKS : Int) - 1 + 1 -
        ((b.filter (fun row => !isFullRow row)).length : Int)).toNat =
        BOARD_HEIGHT_BLOCKS - (b.filter (fun row => !isFullRow row)).length := by
      push_cast
      omega
    have e2 : ((BOARD_HEIGHT_BLOCKS : Int) - 1 + 1).toNat = BOARD_HEIGHT_BLOCKS := by
      push_cast
      omega
    rw [e1, e2, List.take_replicate,
      List.drop_eq_nil_of_le (by rw [List.length_replicate]), List.append_nil]
    have e3 : (BOARD_HEIGHT_BLOCKS - (b.filter (fun row => !isFullRow row)).length) ⊓
        BOARD_HEIGHT_BLOCKS =
        BOARD_HEIGHT_BLOCKS - (b.filter (fun row => !isFullRow row)).length := by
      omega
    have e4 : (b.filter isFullRow).length =
        BOARD_HEIGHT_BLOCKS - (b.filter (fun row => !isFullRow row)).length := by
      omega
    rw [e3, ← e4]

/-- `clear_lines` preserves the grid shape. -/
theorem WFBoard_clear_lines {s : GState} (hwf : WFBoard s.board_state) :
    WFBoard (clear_lines s).board_state := by
  rw [clear_lines_board hwf]
  obtain ⟨hlen, hrows⟩ := hwf
  have hcount := filter_length_split s.board_state
  have hmle : (s.board_state.filter (fun row => !isFullRow row)).length ≤
      s.board_state.length := List.length_filter_le _ _
  constructor
  · rw [List.length_append, List.length_replicate]
    omega
  · intro row hrow
    rcases List.mem_append.mp hrow with h | h
    · rw [List.eq_of_mem_replicate h]
      exact List.length_replicate ..
    · exact hrows row (List.mem_filter.mp h).1

/-- `reset_board` establishes the invariant outright. -/
theorem Inv_reset (r : Int) (s : GState) : Inv (reset_board r s) := by
  constructor
  · constructor
    · exact List.length_replicate ..
    · intro row hrow
      rw [List.eq_of_mem_replicate hrow]
      exact List.length_replicate ..
  · intro p hp
    exact absurd hp (List.not_mem_nil p)

/-- `create_new_piece` preserves the invariant: either the spawn passes the
collision check, or the piece is discarded. -/
theorem Inv_create {s : GState} (hs : Inv s) (r : Int) :
    Inv (create_new_piece r s) := by
  obtain ⟨hwf, -⟩ := hs
  unfold create_new_piece
  dsimp only
  split
  · exact ⟨hwf, fun p hp => absurd hp (List.not_mem_nil p)⟩
  · rename_i hcond
    rw [not_not] at hcond
    exact ⟨hwf, fun p hp => check_collision_eq_true.mp hcond p hp⟩

/-- `move_piece` preserves the invariant. -/
theorem Inv_move {s : GState} (hs : Inv s) (dx dy : Int) :
    Inv (move_piece dx dy s).1 := by
  obtain ⟨hwf, hv⟩ := hs
  unfold move_piece
  split
  · exact ⟨hwf, hv⟩
  · dsimp only
    split
    · rename_i hc
      exact ⟨hwf, fun p hp => check_collision_eq_true.mp hc p hp⟩
    · exact ⟨hwf, hv⟩

/-- `rotate_piece` preserves the invariant. -/
theorem Inv_rotate {s : GState} (hs : Inv s) : Inv (rotate_piece s) := by
  obtain ⟨hwf, hv⟩ := hs
  unfold rotate_piece
  split
  · exact ⟨hwf, hv⟩
  · split
    · exact ⟨hwf, hv⟩
    · dsimp only
      split
      · rename_i hc
        exact ⟨hwf, fun p hp => check_collision_eq_true.mp hc p hp⟩
      · exact ⟨hwf, hv⟩

/-- `cement_piece` preserves the invariant: the piece is written into the
grid, full rows are cleared, and the replacement spawn is itself checked. -/
theorem Inv_cement {s : GState} (hs : Inv s) (r : Int) :
    Inv (cement_piece r s) := by
  obtain ⟨hwf, hv⟩ := hs
  unfold cement_piece
  split
  · exact ⟨hwf, hv⟩
  · have hwf1 : WFBoard (lockCells s.board_state s.current_piece_coords
        s.current_piece_shape_index) :=
      WFBoard_lockCells _ hwf _
    have hwf2 : WFBoard (clear_lines
        { s with
          board_state :=
            lockCells s.board_state s.current_piece_coords
              s.current_piece_shape_index }).board_state :=
      WFBoard_clear_lines hwf1
    dsimp only
    split
    · apply Inv_create _ r
      exact ⟨hwf2, fun p hp => absurd hp (List.not_mem_nil p)⟩
    · exact ⟨hwf2, fun p hp => absurd hp (List.not_mem_nil p)⟩

/-- `slide_down` preserves the invariant. -/
theorem Inv_slide {s : GState} (hs : Inv s) (r : Int) :
    Inv (slide_down r s).1 := by
  unfold slide_down
  dsimp only
  split
  · exact Inv_cement (Inv_move hs 0 1) r
  · exact Inv_move hs 0 1

/-- `drop_piece` preserves the invariant: the shadow cells are collision
free, and cementing preserves it from there. -/
theorem Inv_drop {s : GState} (hs : Inv s) (r : Int) :
    Inv (drop_piece r s) := by
  obtain ⟨hwf, hv⟩ := hs
  unfold drop_piece
  split
  · exact ⟨hwf, hv⟩
  · rename_i hguard
    have hne : s.current_piece_coords ≠ [] := fun h => hguard (Or.inl h)
    dsimp only
    split
    · exact ⟨hwf, hv⟩
    · have hcur : check_collision s.board_state s.current_piece_coords = true :=
        check_collision_eq_true.mpr hv
      obtain ⟨hsv, -⟩ := calc_shadow_valid hne hcur
      apply Inv_cement _ r
      exact ⟨hwf, fun p hp => check_collision_eq_true.mp hsv p hp⟩

/-- `pause_game` preserves the invariant. -/
theorem Inv_pause {s : GState} (hs : Inv s) : Inv (pause_game s) := by
  obtain ⟨hwf, hv⟩ := hs
  unfold pause_game
  split
  · exact ⟨hwf, hv⟩
  · exact ⟨hwf, hv⟩

/-- `resume_game` preserves the invariant. -/
theorem Inv_resume {s : GState} (hs : Inv s) : Inv (resume_game s) := by
  obtain ⟨hwf, hv⟩ := hs
  unfold resume_game
  split
  · exact ⟨hwf, hv⟩
  · exact ⟨hwf, hv⟩

/-- `start_game` establishes the invariant. -/
theorem Inv_start (r1 r2 : Int) (s : GState) : Inv (start_game r1 r2 s) := by
  unfold start_game
  dsimp only
  apply Inv_create _ r2
  exact ⟨(Inv_reset r1 s).1, fun p hp => absurd hp (List.not_mem_nil p)⟩

/-- Every engine command preserves the invariant. -/
theorem Inv_step {s s' : GState} (hs : Inv s) (hst : Step s s') : Inv s' := by
  cases hst with
  | move dx dy s => exact Inv_move hs dx dy
  | rot s => exact Inv_rotate hs
  | slide r h s => exact Inv_slide hs r
  | drop r h s => exact Inv_drop hs r
  | pause s => exact Inv_pause hs
  | resume s => exact Inv_resume hs
  | start r1 r2 h1 h2 s => exact Inv_start r1 r2 s
  | reset r h s => exact Inv_reset r s

/-- The invariant holds in every reachable state. -/
theorem Inv_reachable {s : GState} (hr : Reachable s) : Inv s := by
  induction hr with
  | init r h => exact Inv_reset r init0
  | step ha hst ih => exact Inv_step ih hst

/-- `create_new_piece` changes neither the level nor the row total. -/
theorem create_level_rows (r : Int) (s : GState) :
    (create_new_piece r s).level = s.level ∧
    (create_new_piece r s).rows_cleared_total = s.rows_cleared_total := by
  unfold create_new_piece
  dsimp only
  split
  · exact ⟨rfl, rfl⟩
  · exact ⟨rfl, rfl⟩

/-- `clear_lines` keeps the level equal to the row total divided by ten. -/
theorem ProgressInv_clear {s : GState} (h : ProgressInv s) :
    ProgressInv (clear_lines s) := by
  by_cases hnil : linesToClear s.board_state = []
  · rw [clear_lines_of_nil hnil]
    exact h
  · obtain ⟨-, hrows, hlvl⟩ := clear_lines_progress_pos hnil
    unfold ProgressInv at h ⊢
    rw [hrows, hlvl]
    by_cases hgt : (s.rows_cleared_total + (linesToClear s.board_state).length) / 10 >
        s.level
    · rw [if_pos hgt]
    · rw [if_neg hgt]
      have hmono : s.rows_cleared_total / 10 ≤
          (s.rows_cleared_total + (linesToClear s.board_state).length) / 10 :=
        Nat.div_le_div_right (Nat.le_add_right _ _)
      omega

/-- `create_new_piece` preserves the progression invariant. -/
theorem ProgressInv_create {s : GState} (h : ProgressInv s) (r : Int) :
    ProgressInv (create_new_piece r s) := by
  unfold ProgressInv
  rw [(create_level_rows r s).1, (create_level_rows r s).2]
  exact h

/-- `cement_piece` preserves the progression invariant. -/
theorem ProgressInv_cement {s : GState} (h : ProgressInv s) (r : Int) :
    ProgressInv (cement_piece r s) := by
  unfold cement_piece
  split
  · exact h
  · dsimp only
    have h1 : ProgressInv (clear_lines { s with board_state := lockCells s.board_state s.current_piece_coords s.current_piece_shape_index }) :=
      ProgressInv_clear h
    split
    · unfold ProgressInv
      rw [(create_level_rows _ _).1, (create_level_rows _ _).2]
      exact h1
    · exact h1

/-- `move_piece` preserves the progression invariant. -/
theorem ProgressInv_move {s : GState} (h : ProgressInv s) (dx dy : Int) :
    ProgressInv (move_piece dx dy s).1 := by
  unfold move_piece
  split
  · exact h
  · dsimp only
    split
    · exact h
    · exact h

/-- `rotate_piece` preserves the progression invariant. -/
theorem ProgressInv_rotate {s : GState} (h : ProgressInv s) :
    ProgressInv (rotate_piece s) := by
  unfold rotate_piece
  split
  · exact h
  · split
    · exact h
    · dsimp only
      split
      · exact h
      · exact h

/-- `slide_down` preserves the progression invariant. -/
theorem ProgressInv_slide {s : GState} (h : ProgressInv s) (r : Int) :
    ProgressInv (slide_down r s).1 := by
  unfold slide_down
  dsimp only
  split
  · exact ProgressInv_cement (ProgressInv_move h 0 1) r
  · exact ProgressInv_move h 0 1

/-- `drop_piece` preserves the progression invariant. -/
theorem ProgressInv_drop {s : GState} (h : ProgressInv s) (r : Int) :
    ProgressInv (drop_piece r s) := by
  unfold drop_piece
  split
  · exact h
  · dsimp only
    split
    · exact h
    · apply ProgressInv_cement _ r
      exact h

/-- Every engine command preserves the progression invariant. -/
theorem ProgressInv_step {s s' : GState} (h : ProgressInv s) (hst : Step s s') :
    ProgressInv s' := by
  cases hst with
  | move dx dy s => exact ProgressInv_move h dx dy
  | rot s => exact ProgressInv_rotate h
  | slide r hr s => exact ProgressInv_slide h r
  | drop r hr s => exact ProgressInv_drop h r
  | pause s =>
    unfold pause_game
    split
    · exact h
    · exact h
  | resume s =>
    unfold resume_game
    split
    · exact h
    · exact h
  | start r1 r2 h1 h2 s =>
    unfold start_game
    dsimp only
    apply ProgressInv_create _ r2
    unfold ProgressInv reset_board
    dsimp only
  | reset r hr s =>
    unfold ProgressInv reset_board
    dsimp only

/-- In every reachable state the level equals `rows_cleared_total / 10`,
which is the hypothesis of the scoring claim. -/
theorem level_eq_rows_div_ten {s : GState} (hr : Reachable s) :
    s.level = s.rows_cleared_total / 10 := by
  induction hr with
  | init r h =>
    unfold reset_board
    dsimp only
  | step ha hst ih => exact ProgressInv_step ih hst

/-- The per-point rotation transform has order 4. -/
theorem rotatePoint_four (pivot p : Pt) :
    rotatePoint pivot (rotatePoint pivot (rotatePoint pivot (rotatePoint pivot p))) = p := by
  unfold rotatePoint
  cases p with
  | mk px py =>
    cases pivot with
    | mk vx vy =>
      simp only [Pt.mk.injEq]
      constructor <;> ring

/-- A rotation whose target cells are collision-free commits exactly the
rotated coordinates. -/
theorem rotate_piece_success {s : GState} (hne : s.current_piece_coords ≠ [])
    (hp : s.is_paused = false) (hsq : s.current_piece_shape_index ≠ 1)
    (hv : check_collision s.board_state
      (s.current_piece_coords.map (rotatePoint s.current_pos)) = true) :
    rotate_piece s =
      { s with current_piece_coords :=
          s.current_piece_coords.map (rotatePoint s.current_pos) } := by
  unfold rotate_piece
  rw [if_neg (fun h => h.elim hne (fun hb => Bool.false_ne_true (hp ▸ hb))),
    if_neg hsq]
  dsimp only
  rw [if_pos hv]

/-- C1: core safety invariant.  In every reachable engine state with an
active piece, each of its occupied cells lies in bounds
`[0, BOARD_WIDTH_BLOCKS) x [0, BOARD_HEIGHT_BLOCKS)` and over a cell of
the locked grid that equals `NO_BLOCK`; by `Inv_step`, every state-mutating
command (spawn, move, rotate, soft drop, hard drop, lock/clear, pause,
resume, start, reset) preserves this. -/
theorem C1_active_piece_invariant (s : GState) (hr : Reachable s)
    (hne : s.current_piece_coords ≠ []) :
    ∀ p ∈ s.current_piece_coords,
      0 ≤ p.x ∧ p.x < (BOARD_WIDTH_BLOCKS : Int) ∧ 0 ≤ p.y ∧
        p.y < (BOARD_HEIGHT_BLOCKS : Int) ∧
        cellAt s.board_state p.x p.y = NO_BLOCK :=
  (Inv_reachable hr).2

/-- Witness for C1: the state reached by starting a fresh game has an
active piece, and the invariant holds on it. -/
theorem C1_witness :
    (start_game 1 1 (reset_board 1 init0)).current_piece_coords ≠ [] ∧
    ∀ p ∈ (start_game 1 1 (reset_board 1 init0)).current_piece_coords,
      0 ≤ p.x ∧ p.x < (BOARD_WIDTH_BLOCKS : Int) ∧ 0 ≤ p.y ∧
        p.y < (BOARD_HEIGHT_BLOCKS : Int) ∧
        cellAt (start_game 1 1 (reset_board 1 init0)).board_state p.x p.y = NO_BLOCK :=
  ⟨by decide,
    C1_active_piece_invariant _
      (Reachable.step (Reachable.init 1 (by decide))
        (Step.start 1 1 (by decide) (by decide) _))
      (by decide)⟩

/-- C2 (code bug): while paused, `move_piece`, `rotate_piece` and
`drop_piece` are no-ops, but `slide_down` is not: `move_piece(0, 1)`
returns `False` because of the pause guard, which `slide_down` treats as a
landing, so the piece is cemented into the grid (cell (5, 2) changes from
`NO_BLOCK` to the piece index) and the active piece is replaced. -/
theorem C2_paused_slide_down_mutates :
    move_piece (-1) 0 pausedState = (pausedState, false) ∧
    move_piece 1 0 pausedState = (pausedState, false) ∧
    rotate_piece pausedState = pausedState ∧
    drop_piece 1 pausedState = pausedState ∧
    cellAt pausedState.board_state 5 2 = NO_BLOCK ∧
    cellAt (slide_down 1 pausedState).1.board_state 5 2 = 1 ∧
    (slide_down 1 pausedState).1.current_piece_coords ≠
      pausedState.current_piece_coords := by
  refine ⟨rfl, rfl, rfl, rfl, by decide, by decide, by decide⟩

/-- C3: `clear_lines` removes exactly the rows in which all
`BOARD_WIDTH_BLOCKS` cells are non-empty; the remaining rows keep their
relative order, end up bottom-aligned under exactly as many all-empty rows
as were cleared, and the grid keeps exactly `BOARD_HEIGHT_BLOCKS` rows of
`BOARD_WIDTH_BLOCKS` cells. -/
theorem C3_clear_lines_spec (s : GState) (hwf : WFBoard s.board_state) :
    (clear_lines s).board_state =
      List.replicate ((s.board_state.filter isFullRow).length) emptyRow ++
        s.board_state.filter (fun row => !isFullRow row) ∧
    (clear_lines s).board_state.length = BOARD_HEIGHT_BLOCKS ∧
    ∀ row ∈ (clear_lines s).board_state, row.length = BOARD_WIDTH_BLOCKS :=
  ⟨clear_lines_board hwf, (WFBoard_clear_lines hwf).1, (WFBoard_clear_lines hwf).2⟩

/-- Witness for C3: clearing the two full bottom rows of `boardW` shifts
the remaining rows down by two and leaves two empty rows on top. -/
theorem C3_witness :
    (clear_lines stateW).board_state =
      List.replicate ((stateW.board_state.filter isFullRow).length) emptyRow ++
        stateW.board_state.filter (fun row => !isFullRow row) ∧
    (clear_lines stateW).board_state.length = BOARD_HEIGHT_BLOCKS ∧
    ∀ row ∈ (clear_lines stateW).board_state, row.length = BOARD_WIDTH_BLOCKS :=
  C3_clear_lines_spec stateW ⟨by decide, by decide⟩

/-- C4: a lock cycle clearing `n` rows (`1 ≤ n ≤ 4`) adds exactly
`n * n * (level + 1) * 10` to the score using the pre-update level, adds
`n` to `rows_cleared_total`, and sets `level` to the new
`rows_cleared_total / 10`; a cycle clearing no rows changes nothing. -/
theorem C4_scoring (s : GState) (hwf : WFBoard s.board_state)
    (hlevel : s.level = s.rows_cleared_total / 10) :
    (1 ≤ (s.board_state.filter isFullRow).length →
      (s.board_state.filter isFullRow).length ≤ 4 →
      (clear_lines s).score = s.score +
        (s.board_state.filter isFullRow).length *
          (s.board_state.filter isFullRow).length * (s.level + 1) * 10 ∧
      (clear_lines s).rows_cleared_total =
        s.rows_cleared_total + (s.board_state.filter isFullRow).length ∧
      (clear_lines s).level =
        (s.rows_cleared_total + (s.board_state.filter isFullRow).length) / 10) ∧
    ((s.board_state.filter isFullRow).length = 0 →
      (clear_lines s).score = s.score ∧
      (clear_lines s).level = s.level ∧
      (clear_lines s).rows_cleared_total = s.rows_cleared_total) := by
  have hlen := hwf.1
  have hltc := linesToClear_length (b := s.board_state) hlen
  constructor
  · intro hn1 hn4
    have hne : ¬ linesToClear s.board_state = [] := by
      intro h
      rw [h] at hltc
      simp at hltc
      omega
    obtain ⟨hscore, hrows, hlvl⟩ := clear_lines_progress_pos hne
    rw [hltc] at hscore hrows hlvl
    refine ⟨hscore, hrows, ?_⟩
    rw [hlvl]
    by_cases hgt : (s.rows_cleared_total +
        (s.board_state.filter isFullRow).length) / 10 > s.level
    · rw [if_pos hgt]
    · rw [if_neg hgt]
      have hmono : s.rows_cleared_total / 10 ≤
          (s.rows_cleared_total + (s.board_state.filter isFullRow).length) / 10 :=
        Nat.div_le_div_right (Nat.le_add_right _ _)
      omega
  · intro hn0
    have hnil : linesToClear s.board_state = [] := by
      rw [hn0] at hltc
      exact List.length_eq_zero.mp hltc
    rw [clear_lines_of_nil hnil]
    exact ⟨rfl, rfl, rfl⟩

/-- Witness for C4: over `boardW` (2 full rows, level 0) the score rises by
40; over `stateLvl2` (1 full row, level 2) it rises by 30; the totals and
level recompute as claimed. -/
theorem C4_witness :
    ((clear_lines stateW).score = stateW.score + 2 * 2 * (stateW.level + 1) * 10 ∧
      (clear_lines stateW).rows_cleared_total = stateW.rows_cleared_total + 2 ∧
      (clear_lines stateW).level = (stateW.rows_cleared_total + 2) / 10) ∧
    ((clear_lines stateLvl2).score =
        stateLvl2.score + 1 * 1 * (stateLvl2.level + 1) * 10 ∧
      (clear_lines stateLvl2).rows_cleared_total =
        stateLvl2.rows_cleared_total + 1 ∧
      (clear_lines stateLvl2).level = (stateLvl2.rows_cleared_total + 1) / 10) :=
  ⟨(C4_scoring stateW ⟨by decide, by decide⟩ (by decide)).1 (by decide) (by decide),
   (C4_scoring stateLvl2 ⟨by decide, by decide⟩ (by decide)).1 (by decide) (by decide)⟩

/-- C5: when the spawn cells of the next piece collide with the locked grid
(or are out of bounds), `create_new_piece` clears `is_started`, emits the
game-over signal, leaves no active piece, and leaves the grid untouched. -/
theorem C5_spawn_failure_game_over (s : GState) (r : Int)
    (hcol : check_collision s.board_state
      (spawnCoords s.next_piece_shape_index) = false) :
    (create_new_piece r s).is_started = false ∧
    (create_new_piece r s).current_piece_coords = [] ∧
    (create_new_piece r s).board_state = s.board_state ∧
    Sig.gameOver ∈ (create_new_piece r s).sigs := by
  unfold create_new_piece
  dsimp only
  split
  · exact ⟨rfl, rfl, rfl,
      List.mem_append.mpr (Or.inr (List.mem_singleton.mpr rfl))⟩
  · rename_i hcond
    rw [not_not] at hcond
    rw [hcol] at hcond
    exact absurd hcond Bool.false_ne_true

/-- Witness for C5: with a locked block on the O piece's spawn cells, the
spawn fails, tops out, and leaves the grid unchanged. -/
theorem C5_witness :
    (create_new_piece 1 blockedState).is_started = false ∧
    (create_new_piece 1 blockedState).current_piece_coords = [] ∧
    (create_new_piece 1 blockedState).board_state = blockedState.board_state ∧
    Sig.gameOver ∈ (create_new_piece 1 blockedState).sigs :=
  C5_spawn_failure_game_over blockedState 1 (by decide)

/-- Counterexample for C6: in `rotateState` the first rotation succeeds and
the second is rejected (blocked by the cell (4, 1)), so four successive
`rotate_piece` calls do not return the piece to its original cell set: cell
(5, 1) is occupied afterwards but was not at the start.  The third conjunct
notes the starting position is a legal active-piece position. -/
theorem C6_counterexample :
    (⟨5, 1⟩ : Pt) ∈ (rotate_piece (rotate_piece (rotate_piece
      (rotate_piece rotateState)))).current_piece_coords ∧
    (⟨5, 1⟩ : Pt) ∉ rotateState.current_piece_coords ∧
    check_collision rotateState.board_state rotateState.current_piece_coords = true :=
  ⟨by decide, by decide, by decide⟩

/-- C6 (amended): the rotation transform maps each offset `(rx, ry)`
relative to the pivot to `(-ry, rx)` and has order 4; rotating the square
piece is a no-op; a rotation whose target cells are collision-free commits
exactly the transformed cells; and four `rotate_piece` calls return the
original cell set provided each of the four rotated configurations is
collision-free (without that proviso a rejected rotation can strand the
piece in an intermediate orientation). -/
theorem C6_rotation_amended :
    (∀ pivot p : Pt,
      rotatePoint pivot (rotatePoint pivot (rotatePoint pivot (rotatePoint pivot p))) = p) ∧
    (∀ s : GState, s.current_piece_shape_index = 1 → rotate_piece s = s) ∧
    (∀ s : GState, s.current_piece_coords ≠ [] → s.is_paused = false →
      s.current_piece_shape_index ≠ 1 →
      check_collision s.board_state
        (s.current_piece_coords.map (rotatePoint s.current_pos)) = true →
      (rotate_piece s).current_piece_coords =
        s.current_piece_coords.map (rotatePoint s.current_pos)) ∧
    (∀ s : GState, s.current_piece_coords ≠ [] → s.is_paused = false →
      s.current_piece_shape_index ≠ 1 →
      check_collision s.board_state s.current_piece_coords = true →
      check_collision s.board_state
        (s.current_piece_coords.map (rotatePoint s.current_pos)) = true →
      check_collision s.board_state
        ((s.current_piece_coords.map (rotatePoint s.current_pos)).map
          (rotatePoint s.current_pos)) = true →
      check_collision s.board_state
        (((s.current_piece_coords.map (rotatePoint s.current_pos)).map
          (rotatePoint s.current_pos)).map (rotatePoint s.current_pos)) = true →
      (rotate_piece (rotate_piece (rotate_piece
        (rotate_piece s)))).current_piece_coords = s.current_piece_coords) := by
  refine ⟨rotatePoint_four, ?_, ?_, ?_⟩
  · intro s hsq
    unfold rotate_piece
    by_cases hg : s.current_piece_coords = [] ∨ s.is_paused
    · rw [if_pos hg]
    · rw [if_neg hg, if_pos hsq]
  · intro s hne hp hsq hv
    rw [rotate_piece_success hne hp hsq hv]
  · intro s hne hp hsq hv0 hv1 hv2 hv3
    have hmapne : ∀ l : List Pt, l ≠ [] →
        l.map (rotatePoint s.current_pos) ≠ [] := by
      intro l hl h
      exact hl (List.map_eq_nil_iff.mp h)
    have hc4 : (((s.current_piece_coords.map (rotatePoint s.current_pos)).map
        (rotatePoint s.current_pos)).map (rotatePoint s.current_pos)).map
        (rotatePoint s.current_pos) = s.current_piece_coords := by
      rw [List.map_map, List.map_map, List.map_map]
      have hfun : ((rotatePoint s.current_pos ∘ rotatePoint s.current_pos) ∘
          rotatePoint s.current_pos) ∘ rotatePoint s.current_pos = id := by
        funext p
        simp only [Function.comp, id]
        exact rotatePoint_four s.current_pos p
      rw [hfun, List.map_id]
    have hv4 : check_collision s.board_state
        ((((s.current_piece_coords.map (rotatePoint s.current_pos)).map
          (rotatePoint s.current_pos)).map (rotatePoint s.current_pos)).map
          (rotatePoint s.current_pos)) = true := by
      rw [hc4]
      exact hv0
    have h1 := rotate_piece_success hne hp hsq hv1
    have h2 := rotate_piece_success (s := { s with current_piece_coords := s.current_piece_coords.map (rotatePoint s.current_pos) }) (hmapne _ hne) hp hsq hv2
    have h3 := rotate_piece_success (s := { s with current_piece_coords := (s.current_piece_coords.map (rotatePoint s.current_pos)).map (rotatePoint s.current_pos) }) (hmapne _ (hmapne _ hne)) hp hsq hv3
    have h4 := rotate_piece_success (s := { s with current_piece_coords := ((s.current_piece_coords.map (rotatePoint s.current_pos)).map (rotatePoint s.current_pos)).map (rotatePoint s.current_pos) }) (hmapne _ (hmapne _ (hmapne _ hne))) hp hsq hv4
    rw [h1]
    try dsimp only
    rw [h2]
    try dsimp only
    rw [h3]
    try dsimp only
    rw [h4]
    try dsimp only
    exact hc4

/-- Witness for C6: the transform has order 4 at a concrete pivot and
point, and four rotations of the T piece in open space restore its cells. -/
theorem C6_witness :
    rotatePoint ⟨3, 4⟩ (rotatePoint ⟨3, 4⟩ (rotatePoint ⟨3, 4⟩
      (rotatePoint ⟨3, 4⟩ ⟨7, 9⟩))) = (⟨7, 9⟩ : Pt) ∧
    (rotate_piece (rotate_piece (rotate_piece
      (rotate_piece tState)))).current_piece_coords = tState.current_piece_coords :=
  ⟨C6_rotation_amended.1 ⟨3, 4⟩ ⟨7, 9⟩,
   C6_rotation_amended.2.2.2 tState (by decide) (by decide) (by decide)
     (by decide) (by decide) (by decide) (by decide)⟩

/-- C7: with an active piece and not paused, `move_piece(dx, dy)` commits
the translation (cells and pivot) and returns `True` exactly when all
translated cells are in bounds and empty; otherwise it returns `False` and
the whole state — grid, occupied cells and pivot included — is unchanged. -/
theorem C7_move_piece_spec (s : GState) (dx dy : Int)
    (hne : s.current_piece_coords ≠ []) (hp : s.is_paused = false) :
    (check_collision s.board_state
        (s.current_piece_coords.map (fun p => (⟨p.x + dx, p.y + dy⟩ : Pt))) = true →
      move_piece dx dy s =
        ({ s with
            current_piece_coords :=
              s.current_piece_coords.map (fun p => (⟨p.x + dx, p.y + dy⟩ : Pt))
            current_pos := ⟨s.current_pos.x + dx, s.current_pos.y + dy⟩ }, true)) ∧
    (check_collision s.board_state
        (s.current_piece_coords.map (fun p => (⟨p.x + dx, p.y + dy⟩ : Pt))) = false →
      move_piece dx dy s = (s, false)) := by
  constructor <;> intro hc <;> unfold move_piece <;>
    rw [if_neg (fun h => h.elim hne (fun hb => Bool.false_ne_true (hp ▸ hb)))] <;>
    dsimp only
  · rw [if_pos hc]
  · rw [if_neg (by rw [hc]; exact Bool.false_ne_true)]

/-- Witness for C7: from `tState`, moving right by one succeeds and commits
the translation; moving left by ten hits the wall, fails and changes
nothing. -/
theorem C7_witness :
    move_piece 1 0 tState =
      ({ tState with
          current_piece_coords :=
            tState.current_piece_coords.map (fun p => (⟨p.x + 1, p.y + 0⟩ : Pt))
          current_pos := ⟨tState.current_pos.x + 1, tState.current_pos.y + 0⟩ }, true) ∧
    move_piece (-10) 0 tState = (tState, false) :=
  ⟨(C7_move_piece_spec tState 1 0 (by decide) rfl).1 (by decide),
   (C7_move_piece_spec tState (-10) 0 (by decide) rfl).2 (by decide)⟩

/-- C8: on a well-formed grid, the collision check with exception-aware
Python indexing never raises (it is `some` of the total model) for every
integer coordinate list, and any piece containing an out-of-bounds point is
reported as colliding. -/
theorem C8_collision_oob_total (b : Board) (coords : List Pt)
    (hwf : WFBoard b) :
    check_collision_opt b coords = some (check_collision b coords) ∧
    ∀ p ∈ coords,
      (p.x < 0 ∨ (BOARD_WIDTH_BLOCKS : Int) ≤ p.x ∨ p.y < 0 ∨
        (BOARD_HEIGHT_BLOCKS : Int) ≤ p.y) →
      check_collision b coords = false :=
  ⟨check_collision_opt_eq hwf coords,
   fun _ hp hoob => check_collision_eq_false_of_oob hp hoob⟩

/-- Witness for C8: on the empty grid, a list containing (-3, 5) is total
to evaluate and reported as colliding. -/
theorem C8_witness :
    check_collision_opt emptyBoard oobCoords =
      some (check_collision emptyBoard oobCoords) ∧
    check_collision emptyBoard oobCoords = false :=
  ⟨(C8_collision_oob_total emptyBoard oobCoords ⟨by decide, by decide⟩).1,
   (C8_collision_oob_total emptyBoard oobCoords ⟨by decide, by decide⟩).2
     ⟨-3, 5⟩ (by decide) (by decide)⟩

/-- Counterexample for C9: `_calculate_shadow_position` stops just above
the FIRST colliding downward offset, not at the LARGEST collision-free
one.  Over `shadowBoard` (block at (5, 10) with empty space below) the O
piece's shadow is its translation by 6, yet translating by 18 is also
collision-free — so the returned cells are not the translation by the
largest collision-free `dy`. -/
theorem C9_counterexample :
    calc_shadow shadowBoard shadowPiece = translateY shadowPiece 6 ∧
    check_collision shadowBoard (translateY shadowPiece 18) = true ∧
    translateY shadowPiece 6 ≠ translateY shadowPiece 18 ∧
    check_collision shadowBoard shadowPiece = true :=
  ⟨by decide, by decide, by decide, by decide⟩

/-- C9 (amended): the shadow query mutates neither the grid nor the active
piece, and for a nonempty piece returns the cells translated down by the
`d ≥ 0` just above the first colliding offset: offset `d + 1` collides,
every offset `1..d` is collision-free, and when the current position is
itself collision-free so is the returned one (`d` is the deepest offset
reachable by successive collision-free unit descents). -/
theorem C9_shadow_amended (s : GState) :
    (calcShadowQuery s).1 = s ∧
    (s.current_piece_coords = [] → (calcShadowQuery s).2 = []) ∧
    (s.current_piece_coords ≠ [] →
      ∃ d : Nat,
        (calcShadowQuery s).2 = translateY s.current_piece_coords (d : Int) ∧
        check_collision s.board_state
          (translateY s.current_piece_coords ((d : Int) + 1)) = false ∧
        (∀ j : Nat, 1 ≤ j → j ≤ d →
          check_collision s.board_state
            (translateY s.current_piece_coords (j : Int)) = true) ∧
        (check_collision s.board_state s.current_piece_coords = true →
          check_collision s.board_state
            (translateY s.current_piece_coords (d : Int)) = true)) := by
  refine ⟨rfl, ?_, ?_⟩
  · intro h
    show calc_shadow s.board_state s.current_piece_coords = []
    rw [h]
    rfl
  · intro hne
    cases hcl : s.current_piece_coords with
    | nil => exact absurd hcl hne
    | cons p rest =>
      obtain ⟨d, heq, h2, h3⟩ := calc_shadow_spec s.board_state p rest
      refine ⟨d, ?_, h2, h3, ?_⟩
      · show calc_shadow s.board_state s.current_piece_coords = _
        rw [hcl]
        exact heq
      · intro hcur
        rcases Nat.eq_zero_or_pos d with hd | hd
        · subst hd
          rw [show ((0 : Nat) : Int) = 0 from rfl, translateY_zero]
          exact hcur
        · exact h3 d hd le_rfl

/-- Witness for C9: at `sShadow` the query leaves the state unchanged and
its result satisfies the landing characterisation. -/
theorem C9_witness :
    (calcShadowQuery sShadow).1 = sShadow ∧
    (∃ d : Nat,
      (calcShadowQuery sShadow).2 =
        translateY sShadow.current_piece_coords (d : Int) ∧
      check_collision sShadow.board_state
        (translateY sShadow.current_piece_coords ((d : Int) + 1)) = false ∧
      (∀ j : Nat, 1 ≤ j → j ≤ d →
        check_collision sShadow.board_state
          (translateY sShadow.current_piece_coords (j : Int)) = true) ∧
      (check_collision sShadow.board_state sShadow.current_piece_coords = true →
        check_collision sShadow.board_state
          (translateY sShadow.current_piece_coords (d : Int)) = true)) :=
  ⟨(C9_shadow_amended sShadow).1, (C9_shadow_amended sShadow).2.2 (by decide)⟩

/-- C10: locking is bounds-guarded and total.  On a well-formed grid, for
every coordinate list (including out-of-range points) the locking loop with
exception-aware Python indexing never raises; it preserves the grid's
dimensions and modifies no in-bounds cell whose coordinates are not in the
list. -/
theorem C10_lock_bounds_guarded (b : Board) (coords : List Pt) (idx : Int)
    (hwf : WFBoard b) :
    lockCellsOpt b coords idx = some (lockCells b coords idx) ∧
    (lockCells b coords idx).length = b.length ∧
    (∀ row ∈ lockCells b coords idx, row.length = BOARD_WIDTH_BLOCKS) ∧
    ∀ x y : Int, 0 ≤ x → x < (BOARD_WIDTH_BLOCKS : Int) → 0 ≤ y →
      y < (BOARD_HEIGHT_BLOCKS : Int) → (⟨x, y⟩ : Pt) ∉ coords →
      cellAt (lockCells b coords idx) x y = cellAt b x y :=
  ⟨lockCellsOpt_eq coords hwf idx,
   length_lockCells coords b idx,
   (WFBoard_lockCells coords hwf idx).2,
   fun _ _ hx _ hy _ hnm => cellAt_lockCells_not_mem coords b idx hx hy hnm⟩

/-- Witness for C10: locking `oobCoords` (with its out-of-bounds points)
into the empty grid raises nothing, keeps the dimensions, and leaves the
unlisted cell (0, 0) unchanged. -/
theorem C10_witness :
    lockCellsOpt emptyBoard oobCoords 5 =
      some (lockCells emptyBoard oobCoords 5) ∧
    (lockCells emptyBoard oobCoords 5).length = emptyBoard.length ∧
    cellAt (lockCells emptyBoard oobCoords 5) 0 0 = cellAt emptyBoard 0 0 :=
  ⟨(C10_lock_bounds_guarded emptyBoard oobCoords 5 ⟨by decide, by decide⟩).1,
   (C10_lock_bounds_guarded emptyBoard oobCoords 5 ⟨by decide, by decide⟩).2.1,
   (C10_lock_bounds_guarded emptyBoard oobCoords 5 ⟨by decide, by decide⟩).2.2.2
     0 0 (by decide) (by decide) (by decide) (by decide) (by decide)⟩

end Tetris
